import Mathlib

/-!
Verification of afblib (github.com/afborchert/afblib) against its
natural-language specification.

Shallow embedding of the three cores of the library:

* the TCP session multiplexor (`src/multiplexor.c`), modelled per
  connection as a state machine over `Mpx.Conn` driven by the poll
  events of the event loop in `run_multiplexor`;
* the UDP session server (`udp_session.c`), modelled per link as a
  state machine over `Udp.Link`;
* the shared-memory communication domain (`src/shared_domain.c`),
  with the barrier protocol of `sd_barrier`, the guard paths of
  `sd_write`/`sd_read`, and the shutdown protocol of `sd_shutdown`;
* the sliding buffer (`src/sliding_buffer.c`);
* the capture extraction of `mpx_session_scan` (`mpx_session.c`);
* the SIGPIPE disposition handling of `run_multiplexor`.

All definitions are transliterated from the C sources; machine reads
and writes appear as event parameters (the value the corresponding
system call returned).
-/

namespace Mpx

/-- An output queue member of the TCP multiplexor
(`output_queue_member` in `multiplexor.c`): an owned buffer of `len`
bytes of which `pos` have already been written. The buffer contents
are irrelevant to the lifecycle claims, so only the two counters are
kept. -/
structure Seg where
  len : Nat
  pos : Nat
  deriving Repr, DecidableEq

/-- The per-connection state of the TCP multiplexor
(`connection` in `multiplexor.h`): the `eof` flag and the FIFO of
pending output segments (`oqhead`/`oqtail` flattened into a list). -/
structure Conn where
  eof : Bool
  oq : List Seg
  deriving Repr, DecidableEq

/-- The connection state of a freshly accepted connection, as
initialized by `add_connection` in `multiplexor.c`:
`.eof = false, .oqhead = 0, .oqtail = 0`. -/
def freshConn : Conn := { eof := false, oq := [] }

/-- Observable per-connection effects of the multiplexor loop:
the callbacks delivered for the connection and the `close(2)` of its
descriptor. -/
inductive Effect where
  /-- the input handler `ihandler` is invoked on the connection -/
  | input : Effect
  /-- `close(link->fd)` at the top of `remove_link` -/
  | closeFd : Effect
  /-- the close handler `chandler` is invoked from `remove_link` -/
  | close : Effect
  deriving Repr, DecidableEq

/-- Events delivered to one connection by the event loop of
`run_multiplexor`, with the return value of the underlying system
call where one occurs. -/
inductive Event where
  /-- the weeding pass at the top of `setup_polls`
  (`multiplexor.c:183-187`) -/
  | gc : Event
  /-- POLLIN: the input handler runs and calls `read_from_link` once;
  `read(2)` returns `n` -/
  | readable (n : Int) : Event
  /-- POLLOUT: `write_to_socket` runs; `write(2)` returns `n`.
  POLLOUT is subscribed only while the output queue is non-empty
  (`multiplexor.c:210`), so the event is a no-op on an empty queue. -/
  | writable (n : Int) : Event
  /-- a handler calls `write_to_link(link, buf, len)` (success path) -/
  | enqueue (len : Nat) : Event
  /-- a handler calls `close_link(link)` -/
  | closeLink : Event
  deriving Repr, DecidableEq

/-- `remove_link` (`multiplexor.c:157-172`): close the descriptor,
unlink the connection, invoke the close handler, free the record.
The freed record is the `none` state. -/
def remove_link : Option Conn × List Effect :=
  (none, [Effect.closeFd, Effect.close])

/-- `read_from_link` (`multiplexor.c:248-256`), given the value `n`
that `read(2)` would return. Returns the result of the call, the
successor state and the effects (`remove_link`, when it fires).
With `eof` already set it returns 0 without reading. -/
def read_from_link (c : Conn) (n : Int) : Int × Option Conn × List Effect :=
  if c.eof then (0, some c, [])
  else if n ≤ 0 then
    let c' : Conn := { c with eof := true }
    if c'.oq = [] then (n, remove_link.1, remove_link.2)
    else (n, some c', [])
  else (n, some c, [])

/-- `write_to_socket` (`multiplexor.c:259-279`) on a connection whose
output queue head is `h`, given the value `n` that `write(2)`
returned. `n ≤ 0` destroys the connection at once; otherwise `pos`
advances and a fully written head is popped, destroying the
connection when the queue drains while `eof` holds. -/
def write_to_socket (c : Conn) (h : Seg) (t : List Seg) (n : Int) :
    Option Conn × List Effect :=
  if n ≤ 0 then remove_link
  else
    let pos' := h.pos + n.toNat
    if pos' = h.len then
      if t = [] ∧ c.eof then remove_link
      else (some { c with oq := t }, [])
    else (some { c with oq := { h with pos := pos' } :: t }, [])

/-- One event of the multiplexor loop delivered to one connection.
`none` (a destroyed connection) absorbs all events: `remove_link`
frees the record and removes it from the connection list, so no
event is ever delivered to it again. -/
def step (s : Option Conn) (e : Event) : Option Conn × List Effect :=
  match s with
  | none => (none, [])
  | some c =>
    match e with
    | Event.gc =>
      -- setup_polls: `if (link->eof && link->oqhead == 0) remove_link`
      if c.eof ∧ c.oq = [] then remove_link else (some c, [])
    | Event.readable n =>
      -- ihandler fires, then calls read_from_link exactly once
      let r := read_from_link c n
      (r.2.1, Effect.input :: r.2.2)
    | Event.writable n =>
      match c.oq with
      | [] => (some c, [])  -- POLLOUT not subscribed on empty queue
      | h :: t => write_to_socket c h t n
    | Event.enqueue len =>
      -- write_to_link: a zero length frees the buffer and changes nothing
      if len = 0 then (some c, [])
      else (some { c with oq := c.oq ++ [{ len := len, pos := 0 }] }, [])
    | Event.closeLink =>
      -- close_link: set eof, shutdown(SHUT_RD) (not a close(2))
      (some { c with eof := true }, [])

/-- A run of the multiplexor loop, as seen by one connection: the
events are delivered in order, and the emitted effects are
concatenated. -/
def run (s : Option Conn) : List Event → Option Conn × List Effect
  | [] => (s, [])
  | e :: es =>
    let r := step s e
    let r' := run r.1 es
    (r'.1, r.2 ++ r'.2)

end Mpx

namespace Udp

/-- An output queue member of the UDP session server
(`output_queue_member` in `udp_session.c`): an owned datagram of
`len` bytes with its transmission counter `attempts` and its elapsed
poll-cycle counter `timeouts`. -/
structure Seg where
  len : Nat
  attempts : Nat
  timeouts : Nat
  deriving Repr, DecidableEq

/-- The per-link state of the UDP session server (`udp_connection`):
the `closed` flag and the FIFO of pending output datagrams. The
peer address, descriptor and `initialized` flag do not affect the
retry bookkeeping and are omitted; the model treats an initialized
link (every link on the connection list is, by the assertion in
`setup_polls`). -/
structure Link where
  closed : Bool
  oq : List Seg
  deriving Repr, DecidableEq

/-- The link state right after `add_connection`:
`.closed = false, .oqhead = 0, .oqtail = 0`. -/
def freshLink : Link := { closed := false, oq := [] }

/-- Observable per-link effects of the UDP event loop. -/
inductive Effect where
  /-- the input handler `ihandler` is invoked on the link -/
  | input : Effect
  /-- `close(link->fd)` at the top of `remove_link` -/
  | closeFd : Effect
  /-- the close handler `chandler` is invoked from `remove_link` -/
  | close : Effect
  /-- `send(link->fd, head->buf, head->len, 0)` in `write_to_socket`
  on the given head segment -/
  | send (s : Seg) : Effect
  deriving Repr, DecidableEq

/-- `discard_oq_head` in `udp_session.c`: pop the head of the output
queue, if any. -/
def discard_oq_head : List Seg → List Seg
  | [] => []
  | _ :: t => t

/-- The weeding pass of `setup_polls` (`udp_session.c`) for one link:
a head segment with `attempts >= max_retries` discards the entire
queue and marks the link closed (transmission timeout); a closed link
with an already transmitted head drops the head instead of resending
it; a closed link with an empty queue is removed, which invokes the
close handler. -/
def gcLink (maxRetries : Nat) (l : Link) : Option Link × List Effect :=
  let l' : Link :=
    match l.oq with
    | [] => l
    | h :: t =>
      if maxRetries ≤ h.attempts then { oq := [], closed := true }
      else if 0 < h.attempts ∧ l.closed then { l with oq := t }
      else l
  if l'.closed ∧ l'.oq = [] then (none, [Effect.closeFd, Effect.close])
  else (some l', [])

/-- The POLLOUT subscription condition of `setup_polls`: the head
exists and `timeouts == attempts` (first attempt, or the last send
has timed out). -/
def subscribedPollout (l : Link) : Bool :=
  match l.oq with
  | [] => false
  | h :: _ => h.timeouts == h.attempts

/-- `write_to_socket` (`udp_session.c`) on a link whose output queue
is `h :: t`, given the value `n` that `send(2)` returned: a failed
send removes the link; otherwise, if more packets are queued the head
is discarded at once, else its `attempts` counter is bumped and it is
kept for retransmission. -/
def write_to_socket (l : Link) (h : Seg) (t : List Seg) (n : Int) :
    Option Link × List Effect :=
  if n < 0 then (none, [Effect.send h, Effect.closeFd, Effect.close])
  else if t ≠ [] then (some { l with oq := t }, [Effect.send h])
  else (some { l with oq := [{ h with attempts := h.attempts + 1 }] },
    [Effect.send h])

/-- The acknowledgement rule of the event loop: on POLLIN, an already
transmitted head (`attempts > 0`) is considered confirmed and
discarded before the input handler runs. -/
def ackDiscard (l : Link) : Link :=
  match l.oq with
  | [] => l
  | h :: t => if 0 < h.attempts then { l with oq := t } else l

/-- `read_from_udp_link` (`udp_session.c`), given the value `n` the
underlying `read`/`recvfrom` (or the fresh-socket creation) would
yield. A closed link returns 0 at once; a negative result closes the
link and removes it when the queue is empty. The socket bookkeeping
of the uninitialized branch has no effect on the retry state and is
not modelled. -/
def read_from_udp_link (l : Link) (n : Int) : Int × Option Link × List Effect :=
  if l.closed then (0, some l, [])
  else if n < 0 then
    let l' : Link := { l with closed := true }
    if l'.oq = [] then (n, none, [Effect.closeFd, Effect.close])
    else (n, some l', [])
  else (n, some l, [])

/-- `write_to_udp_link` (success path): append a fresh segment with
`attempts = 0`, `timeouts = 0` to the output queue. -/
def write_to_udp_link (l : Link) (len : Nat) : Link :=
  { l with oq := l.oq ++ [{ len := len, attempts := 0, timeouts := 0 }] }

/-- The handler may enqueue any number of response datagrams. -/
def enqueueAll (l : Link) (lens : List Nat) : Link :=
  lens.foldl write_to_udp_link l

/-- The poll-timeout pass of `run_udp_service`: a head with
`timeouts < attempts` whose link was subscribed to POLLOUT gets its
`timeouts` counter bumped, re-arming retransmission. -/
def timeoutTick (l : Link) : Link :=
  match l.oq with
  | [] => l
  | h :: t =>
    if h.timeouts < h.attempts ∧ subscribedPollout l then
      { l with oq := { h with timeouts := h.timeouts + 1 } :: t }
    else l

/-- The POLLIN branch of the event loop of `run_udp_service` for an
initialized link: the acknowledgement discard, then the input handler
(which reads once via `read_from_udp_link`, with result `n`, and may
enqueue response datagrams of lengths `lens`). -/
def pollinStep (l₁ : Link) (n : Int) (lens : List Nat) :
    Option Link × List Effect :=
  let l' := ackDiscard l₁
  let rr := read_from_udp_link l' n
  match rr.2.1 with
  | none => (none, Effect.input :: rr.2.2)
  | some l₂ => (some (enqueueAll l₂ lens), Effect.input :: rr.2.2)

/-- What one iteration of the event loop delivers to one link after
the weeding pass: either the poll timed out, or poll reported events —
optionally a readable event (the read result together with the
datagram lengths the handler enqueues) and optionally a writable
event (the send result), dispatched in this order as in the index
loop of `run_udp_service`. A writable event reaches `write_to_socket`
only when POLLOUT was subscribed at `setup_polls` time. -/
inductive IterEvent where
  | timeout : IterEvent
  | io (readEv : Option (Int × List Nat)) (writeEv : Option Int) : IterEvent
  deriving Repr, DecidableEq

/-- One full iteration of the event loop of `run_udp_service`, as
seen by one link: the weeding pass of `setup_polls`, then the
dispatch of the iteration's events. A removed link (state `none`)
absorbs everything. -/
def iterate (maxRetries : Nat) (s : Option Link) (ev : IterEvent) :
    Option Link × List Effect :=
  match s with
  | none => (none, [])
  | some l =>
    let g := gcLink maxRetries l
    match g.1 with
    | none => (none, g.2)
    | some l₁ =>
      match ev with
      | IterEvent.timeout => (some (timeoutTick l₁), g.2)
      | IterEvent.io readEv writeEv =>
        let subscribed := subscribedPollout l₁
        let r : Option Link × List Effect :=
          match readEv with
          | none => (some l₁, [])
          | some (n, lens) => pollinStep l₁ n lens
        match r.1 with
        | none => (none, g.2 ++ r.2)
        | some l₂ =>
          match writeEv with
          | none => (some l₂, g.2 ++ r.2)
          | some n =>
            if subscribed then
              match l₂.oq with
              | [] => (some l₂, g.2 ++ r.2)
              | h :: t =>
                let w := write_to_socket l₂ h t n
                (w.1, g.2 ++ r.2 ++ w.2)
            else (some l₂, g.2 ++ r.2)

/-- A run of the UDP event loop, as seen by one link. -/
def runIter (maxRetries : Nat) (s : Option Link) :
    List IterEvent → Option Link × List Effect
  | [] => (s, [])
  | ev :: evs =>
    let r := iterate maxRetries s ev
    let r' := runIter maxRetries r.1 evs
    (r'.1, r.2 ++ r'.2)

/-- Every segment of the queue respects the retry budget, and every
segment behind the head has never been transmitted (only the head is
eligible for transmission). -/
def LinkInv (mr : Nat) (l : Link) : Prop :=
  (∀ s ∈ l.oq, s.attempts ≤ mr) ∧ (∀ s ∈ l.oq.tail, s.attempts = 0)

end Udp

namespace Sd

/-- A per-recipient buffer of the shared-memory communication domain
(`struct shared_mem_buffer` in `shared_domain.c`): the exclusive
writer and reader tokens, the ring-buffer bookkeeping `filled`,
`read_index`, `write_index`, and the ring's byte storage that
follows the struct in memory (modelled as a list of bytes). The
process-shared mutex and the four condition variables carry no data
and are represented by the blocking semantics of the operations. -/
structure Buffer where
  writing : Bool
  reading : Bool
  filled : Nat
  readIndex : Nat
  writeIndex : Nat
  data : List Nat
  deriving Repr, DecidableEq

/-- The shared part of a communication domain
(`struct shared_mem_header` plus the per-recipient buffers):
participant count, ring capacity, the barrier counter `sync_count`
and the `terminating` flag, and one buffer per recipient. -/
structure Domain where
  nofprocesses : Nat
  bufsize : Nat
  syncCount : Nat
  terminating : Bool
  buffers : List Buffer
  deriving Repr, DecidableEq

/-- The copy loop of `sd_write` (`shared_domain.c:531-549`): while
bytes remain, wait while the ring is full (in this single-call model
a full ring with no concurrent reader means the call blocks: result
`none`), copy `min(nbytes - written, bufsize - filled,
bufsize - write_index)` bytes at `write_index`, advance
`write_index` modulo `bufsize` and increase `filled`. -/
def ringWrite (bufsize : Nat) (b : Buffer) (src : List Nat) :
    Option Buffer :=
  if hsrc : src = [] then some b
  else if b.filled = bufsize then none
  else
    let count := min src.length (min (bufsize - b.filled)
      (bufsize - b.writeIndex))
    if hcount : count = 0 then none
    else
      ringWrite bufsize
        { b with
          data := b.data.take b.writeIndex ++ src.take count ++
            b.data.drop (b.writeIndex + count),
          writeIndex := (b.writeIndex + count) % bufsize,
          filled := b.filled + count }
        (src.drop count)
  termination_by src.length
  decreasing_by
    simp only [List.length_drop]
    have h1 : 0 < src.length := List.length_pos.mpr hsrc
    have h2 : 0 < min src.length (min (bufsize - b.filled)
        (bufsize - b.writeIndex)) := Nat.pos_of_ne_zero hcount
    omega

/-- The copy loop of `sd_read` (`shared_domain.c:583-601`): while
bytes remain, wait while the ring is empty (result `none` in the
single-call model), copy `min(nbytes - bytes_read, filled,
bufsize - read_index)` bytes from `read_index`, advance `read_index`
modulo `bufsize` and decrease `filled`. -/
def ringRead (bufsize : Nat) (b : Buffer) (nbytes : Nat) :
    Option (List Nat × Buffer) :=
  if nbytes = 0 then some ([], b)
  else if b.filled = 0 then none
  else
    let count := min nbytes (min b.filled (bufsize - b.readIndex))
    if hcount : count = 0 then none
    else
      let chunk := (b.data.drop b.readIndex).take count
      match ringRead bufsize
          { b with
            readIndex := (b.readIndex + count) % bufsize,
            filled := b.filled - count }
          (nbytes - count) with
      | none => none
      | some (rest, b') => some (chunk ++ rest, b')
  termination_by nbytes
  decreasing_by
    have h2 : 0 < min nbytes (min b.filled (bufsize - b.readIndex)) :=
      Nat.pos_of_ne_zero hcount
    omega

/-- `sd_write` (`shared_domain.c:505-556`) in the single-call model:
the entry guards in source order — a zero-length write succeeds at
once, an out-of-range recipient fails, a terminating domain fails
(checked again after taking the buffer mutex) — then the acquisition
of the `writing` token (blocking, hence `none`, while another sender
holds it) and the ring-copy loop; on completion the token is
released and `true` is returned. -/
def sd_write (sd : Domain) (recipient : Nat) (buf : List Nat) :
    Option (Bool × Domain) :=
  if buf.length = 0 then some (true, sd)
  else if sd.nofprocesses ≤ recipient then some (false, sd)
  else if sd.terminating then some (false, sd)
  else
    match sd.buffers.get? recipient with
    | none => none
    | some b =>
      if sd.terminating then some (false, sd)
      else if b.writing then none
      else
        match ringWrite sd.bufsize { b with writing := true } buf with
        | none => none
        | some b' =>
          some (true, { sd with
            buffers := sd.buffers.set recipient { b' with writing := false } })

/-- `sd_read` (`shared_domain.c:558-608`) in the single-call model:
a zero-length read succeeds at once, a terminating domain fails
(checked again after taking the mutex), then the acquisition of the
`reading` token and the ring-copy loop from the caller's own mailbox
(`sd->rank`). -/
def sd_read (sd : Domain) (rank : Nat) (nbytes : Nat) :
    Option (Bool × List Nat × Domain) :=
  if nbytes = 0 then some (true, [], sd)
  else if sd.terminating then some (false, [], sd)
  else
    match sd.buffers.get? rank with
    | none => none
    | some b =>
      if sd.terminating then some (false, [], sd)
      else if b.reading then none
      else
        match ringRead sd.bufsize { b with reading := true } nbytes with
        | none => none
        | some (bytes, b') =>
          some (true, bytes, { sd with
            buffers := sd.buffers.set rank { b' with reading := false } })

/-- The `sync_count` update of `sd_barrier`
(`shared_domain.c:489-493`): the first entrant observes 0 and sets it
to `nofprocesses - 1`; each subsequent entrant decrements. -/
def barrierEnter (n sync : Nat) : Nat :=
  if sync = 0 then n - 1 else sync - 1

/-- The value of `sync_count` after `k` participants of a domain with
`n` participants have entered `sd_barrier` in some serialization of
the mutex-protected entry section, starting a round at 0. -/
def syncAfter (n : Nat) : Nat → Nat
  | 0 => 0
  | k + 1 => barrierEnter n (syncAfter n k)

/-- The number of entrants among the first `k` that observe
`sync_count == 0` after their update and therefore broadcast
`wait_for_barrier` (`shared_domain.c:494-495`). -/
def countReleases (n : Nat) : Nat → Nat
  | 0 => 0
  | k + 1 => countReleases n k + (if syncAfter n (k + 1) = 0 then 1 else 0)

/-- The return value of the `k`-th entrant (0-based) of a barrier
round with `n` participants on a non-terminating domain: the entrant
whose update brings `sync_count` to 0 broadcasts and returns true;
every other entrant waits on `wait_for_barrier`
(`shared_domain.c:497-500`) and returns true exactly when a later
entrant broadcasts (its wait loop then observes `sync_count == 0`).
On a terminating domain every call returns false at the entry check
(`shared_domain.c:481`). -/
def participantReturn (terminating : Bool) (n k : Nat) : Bool :=
  if terminating then false
  else if syncAfter n (k + 1) = 0 then true
  else (List.range n).any fun j =>
    decide (k + 1 < j + 1) && decide (syncAfter n (j + 1) = 0)

/-- The condition variables of a shared domain with `n` participants:
`wait_for_barrier` in the header and the four per-recipient
condition variables of each buffer. -/
inductive Cv where
  | waitForBarrier : Cv
  | readyForReading (i : Nat) : Cv
  | readyForWriting (i : Nat) : Cv
  | readyForWritingAlone (i : Nat) : Cv
  | readyForReadingAlone (i : Nat) : Cv
  deriving Repr, DecidableEq

/-- The condition variables broadcast by `sd_shutdown`
(`shared_domain.c:628-639`): `wait_for_barrier` under the header
mutex, then the four condition variables of every buffer, each under
its buffer mutex. -/
def shutdownBroadcasts (n : Nat) : List Cv :=
  Cv.waitForBarrier ::
    (List.range n).bind fun i =>
      [Cv.readyForReading i, Cv.readyForWriting i,
       Cv.readyForWritingAlone i, Cv.readyForReadingAlone i]

/-- `sd_shutdown` (`shared_domain.c:610-641`): a non-creator handle
fails at once; otherwise the `terminating` flag is atomically
exchanged with `true`, a call that finds it already set fails
without broadcasting, and the first successful call broadcasts every
condition variable of the domain (`shared_cv_notify_all` succeeds in
the model) and returns true. -/
def sd_shutdown (creator : Bool) (sd : Domain) : Bool × Domain × List Cv :=
  if ¬creator then (false, sd, [])
  else
    let alreadyTerminating := sd.terminating
    let sd' : Domain := { sd with terminating := true }
    if alreadyTerminating then (false, sd', [])
    else (true, sd', shutdownBroadcasts sd'.nofprocesses)

/-- A concrete per-recipient buffer (ring of four bytes, idle) used
as evaluation input. -/
def sampleBuffer : Buffer :=
  { writing := false, reading := false, filled := 0, readIndex := 0,
    writeIndex := 0, data := [0, 0, 0, 0] }

/-- A concrete two-participant domain used as evaluation input. -/
def sampleDomain : Domain :=
  { nofprocesses := 2, bufsize := 4, syncCount := 0, terminating := false,
    buffers := [sampleBuffer, sampleBuffer] }

end Sd

namespace Sb

/-- A `stralloc` byte buffer (the external dietlib/libowfat type used
by `sliding_buffer.c`): the allocation `s` of `a` bytes of which the
first `len` are in use. The representation keeps the whole
allocation, so `s.length = a` and `len ≤ a`. -/
structure Stralloc where
  s : List Nat
  len : Nat
  a : Nat
  deriving Repr, DecidableEq

/-- A sliding buffer (`sliding_buffer.h`): a `stralloc` plus the
read cursor `offset`; bytes `[0, offset)` are consumed, bytes
`[offset, len)` are unread. -/
structure SlidingBuffer where
  offset : Nat
  sa : Stralloc
  deriving Repr, DecidableEq

/-- `memmove(sa.s, sa.s + offset, cnt)` on the allocation: positions
`[0, cnt)` receive the old bytes `[offset, offset + cnt)`, positions
`[cnt, a)` keep their old values. -/
def memmove (s : List Nat) (offset cnt : Nat) : List Nat :=
  (s.drop offset).take cnt ++ s.drop cnt

/-- Contract of the external `stralloc_readyplus(&sa, n)` (spec §4.E,
"reserve(additional)"): ensure capacity for at least `n` more bytes
beyond `len`, preserving the first `len` bytes; the allocation may
move. Out-of-memory failure is not modelled. -/
def stralloc_readyplus (sa : Stralloc) (n : Nat) : Stralloc :=
  if sa.len + n ≤ sa.a then sa
  else { s := sa.s.take sa.len ++ List.replicate n 0,
         len := sa.len, a := sa.len + n }

/-- `THRESHOLD` in `sliding_buffer.c`. -/
def THRESHOLD : Nat := 64

/-- The second half of `sliding_buffer_ready`
(`sliding_buffer.c:82-92`): if at least `minspace` bytes are free
past `len`, done; else if even reclaiming the consumed prefix would
not make room (`space_left < minspace`), grow via
`stralloc_readyplus`; else shift the `lenv` unread bytes to the
front. `lenv` is the unread length computed at the top of the
function. -/
def sliding_buffer_fit (b : SlidingBuffer) (minspace lenv : Nat) :
    SlidingBuffer × Bool :=
  if minspace ≤ b.sa.a - b.sa.len then (b, true)
  else
    let spaceLeft := b.sa.a - b.sa.len + b.offset
    if spaceLeft < minspace then
      ({ b with sa := stralloc_readyplus b.sa minspace }, true)
    else
      ({ offset := 0,
         sa := { b.sa with s := memmove b.sa.s b.offset lenv, len := lenv } },
       true)

/-- The first half of `sliding_buffer_ready`
(`sliding_buffer.c:73-81`): compute the unread length once; reset an
exhausted buffer; opportunistically shift a small unread tail off a
large (≥ `THRESHOLD`) consumed prefix. -/
def sliding_buffer_compact (b0 : SlidingBuffer) : SlidingBuffer :=
  let len := b0.sa.len - b0.offset
  if len = 0 then
    { b0 with offset := 0, sa := { b0.sa with len := 0 } }
  else if THRESHOLD ≤ b0.offset ∧ len ≤ THRESHOLD then
    { offset := 0,
      sa := { b0.sa with s := memmove b0.sa.s b0.offset len, len := len } }
  else b0

/-- `sliding_buffer_ready` (`sliding_buffer.c:72-93`): the compacting
first half followed by the space-ensuring second half. Returns the
updated buffer and the success flag (out-of-memory is not modelled,
so the flag is always true). -/
def sliding_buffer_ready (b0 : SlidingBuffer) (minspace : Nat) :
    SlidingBuffer × Bool :=
  let len := b0.sa.len - b0.offset
  sliding_buffer_fit (sliding_buffer_compact b0) minspace len

/-- The unread byte sequence of a sliding buffer: the bytes at
positions `[offset, sa.len)`. -/
def unread (b : SlidingBuffer) : List Nat :=
  (b.sa.s.drop b.offset).take (b.sa.len - b.offset)

end Sb

namespace Scan

/-- The capture-extraction loop of `mpx_session_scan`
(`mpx_session.c:353-377`), walking the variadic `stralloc*` arguments
for capturing groups `i, i+1, ...`. Each argument is `none` for a
null pointer (group skipped) or `some` bytes for a caller buffer.
For a present buffer the code computes
`start = s->ovector[2*i] - s->offset`; `start == -1` is taken as the
no-capture marker and the buffer is set to zero length; otherwise
`len = s->ovector[2*i+1] - s->ovector[2*i]` and
`assert(start >= 0 && len <= s->request_len)` guards the copy of
`len` bytes from `s->request + start` — a failing assertion aborts,
modelled as `none`. `stralloc_copyb` failure (out of memory) is not
modelled. -/
def scanArgs (offset : Int) (ovector : List Int) (request : List Nat)
    (requestLen : Nat) : Nat → List (Option (List Nat)) →
    Option (List (Option (List Nat)))
  | _, [] => some []
  | i, arg :: rest =>
    let processed : Option (Option (List Nat)) :=
      match arg with
      | none => some none
      | some _ =>
        let start : Int := ovector.getD (2 * i) 0 - offset
        if start = -1 then some (some [])
        else
          let len : Int := ovector.getD (2 * i + 1) 0 -
            ovector.getD (2 * i) 0
          if 0 ≤ start ∧ len ≤ (requestLen : Int) then
            some (some ((request.drop start.toNat).take len.toNat))
          else none
    match processed with
    | none => none
    | some sa =>
      match scanArgs offset ovector request requestLen (i + 1) rest with
      | none => none
      | some rest' => some (sa :: rest')

/-- `mpx_session_scan` (`mpx_session.c:353-377`): process the first
`s->count` variadic arguments (groups 1 .. count) against the match
data `(offset, ovector, request, request_len)` of the current
request, and return the number of captures present in the match
together with the updated caller buffers; `none` models an aborted
assertion. -/
def mpx_session_scan (count : Nat) (offset : Int) (ovector : List Int)
    (request : List Nat) (requestLen : Nat)
    (args : List (Option (List Nat))) :
    Option (Int × List (Option (List Nat))) :=
  match scanArgs offset ovector request requestLen 1 (args.take count) with
  | none => none
  | some args' => some ((count : Int), args' ++ args.drop count)

end Scan

namespace Sig

/-- The observable outcome of one iteration of the event loop of
`run_multiplexor` (`multiplexor.c:302-319`) as far as control flow is
concerned. -/
inductive IterOutcome where
  /-- `setup_polls` returned 0: the `while` condition fails and the
  loop exits normally -/
  | emptyPollSet : IterOutcome
  /-- `poll(...) <= 0` (`multiplexor.c:303`): `return` -/
  | pollFail : IterOutcome
  /-- `add_connection` returned false, i.e. `malloc` failed
  (`multiplexor.c:308`): `return` -/
  | allocFail : IterOutcome
  /-- events were dispatched and the loop continues -/
  | events : IterOutcome
  deriving Repr, DecidableEq

/-- How `run_multiplexor` exits. -/
inductive ExitPath where
  /-- `sigaction` failed on entry (`multiplexor.c:291`) -/
  | sigactionFailed : ExitPath
  /-- the poll set became empty and the loop ended -/
  | normalExit : ExitPath
  /-- early return on poll failure -/
  | pollFailed : ExitPath
  /-- early return on allocation failure in `add_connection` -/
  | allocFailed : ExitPath
  deriving Repr, DecidableEq

/-- The first loop-exit among the scripted iteration outcomes;
`none` when the script ends with the loop still running. -/
def loopExit : List IterOutcome → Option ExitPath
  | [] => none
  | IterOutcome.emptyPollSet :: _ => some ExitPath.normalExit
  | IterOutcome.pollFail :: _ => some ExitPath.pollFailed
  | IterOutcome.allocFail :: _ => some ExitPath.allocFailed
  | IterOutcome.events :: rest => loopExit rest

/-- The SIGPIPE-disposition bookkeeping of `run_multiplexor`
(`multiplexor.c:286-323`): on entry `sigaction` installs `SIG_IGN`
saving the previous disposition (line 289-291; on failure the
function returns at once, having installed nothing); the `return` on
poll failure (line 303) and the `return` on allocation failure
(line 308) leave the function without reaching line 322; only normal
loop termination reaches `sigaction(SIGPIPE, &old_sigact, 0)` at
line 322. Result: the exit taken, whether `SIG_IGN` was installed on
entry, and whether the prior disposition was restored on exit. -/
def run_multiplexor_signals (sigactionOk : Bool) (iters : List IterOutcome) :
    Option ExitPath × Bool × Bool :=
  if ¬sigactionOk then (some ExitPath.sigactionFailed, false, false)
  else
    match loopExit iters with
    | none => (none, true, false)
    | some ExitPath.normalExit => (some ExitPath.normalExit, true, true)
    | some e => (some e, true, false)

end Sig

namespace Mpx

theorem run_none (es : List Event) : run none es = (none, []) := by
  induction es with
  | nil => rfl
  | cons e es ih => simp [run, step, ih]

/-- Classification of a single step from a live connection: either the
connection stays live and at most an input callback is emitted, or it
is destroyed and the effect list ends with the close-handler
invocation, preceded by exactly one descriptor close. -/
theorem step_classify (c : Conn) (e : Event) :
    ((step (some c) e).1 ≠ none ∧
      ((step (some c) e).2 = [] ∨ (step (some c) e).2 = [Effect.input])) ∨
    ((step (some c) e).1 = none ∧
      ((step (some c) e).2 = [Effect.closeFd, Effect.close] ∨
       (step (some c) e).2 = [Effect.input, Effect.closeFd, Effect.close])) := by
  cases e with
  | gc =>
    by_cases h : c.eof ∧ c.oq = [] <;> simp [step, remove_link, h]
  | readable n =>
    by_cases he : c.eof
    · simp [step, read_from_link, he]
    · by_cases hn : n ≤ 0
      · by_cases hq : c.oq = [] <;>
          simp [step, read_from_link, remove_link, he, hn, hq]
      · simp [step, read_from_link, he, hn]
  | writable n =>
    match hq : c.oq with
    | [] => simp [step, hq]
    | h :: t =>
      by_cases hn : n ≤ 0
      · simp [step, hq, write_to_socket, remove_link, hn]
      · by_cases hp : h.pos + n.toNat = h.len
        · by_cases ht : t = [] ∧ c.eof = true <;>
            simp [step, hq, write_to_socket, remove_link, hn, hp, ht]
        · simp [step, hq, write_to_socket, hn, hp]
  | enqueue len =>
    by_cases h : len = 0 <;> simp [step, h]
  | closeLink => simp [step]

/-- Trace invariant for one connection: while the connection is live
no close-handler invocation and no descriptor close have been
emitted; once it is destroyed, both have been emitted exactly once
and the close-handler invocation is the very last effect of the
whole trace. -/
theorem run_close_spec (es : List Event) (c : Conn) :
    ((run (some c) es).1 ≠ none →
      ((run (some c) es).2.count Effect.close = 0 ∧
       (run (some c) es).2.count Effect.closeFd = 0)) ∧
    ((run (some c) es).1 = none →
      ((run (some c) es).2.count Effect.close = 1 ∧
       (run (some c) es).2.count Effect.closeFd = 1 ∧
       (run (some c) es).2.getLast? = some Effect.close)) := by
  induction es generalizing c with
  | nil =>
    refine ⟨fun _ => ⟨rfl, rfl⟩, fun h => ?_⟩
    simp [run] at h
  | cons e es ih =>
    have hstep := step_classify c e
    rcases hstep with ⟨hlive, heff⟩ | ⟨hdead, heff⟩
    · obtain ⟨c', hc'⟩ := Option.ne_none_iff_exists'.mp hlive
      have hrun : run (some c) (e :: es) =
          ((run (some c') es).1, (step (some c) e).2 ++ (run (some c') es).2) := by
        simp [run, hc']
      have ihc := ih c'
      constructor
      · intro hne
        rw [hrun] at hne ⊢
        have := ihc.1 hne
        rcases heff with h0 | h0 <;>
          simp [h0, List.count_append, this.1, this.2, List.count_cons]
      · intro hne
        rw [hrun] at hne ⊢
        simp only at hne
        have hrec := ihc.2 hne
        have hne' : (run (some c') es).2 ≠ [] := by
          intro hnil
          rw [hnil] at hrec
          simp at hrec
        refine ⟨?_, ?_, ?_⟩
        · rcases heff with h0 | h0 <;>
            simp [h0, List.count_append, hrec.1, List.count_cons]
        · rcases heff with h0 | h0 <;>
            simp [h0, List.count_append, hrec.2.1, List.count_cons]
        · rcases heff with h0 | h0
          · simpa [h0] using hrec.2.2
          · rw [h0]
            show ([Effect.input] ++ (run (some c') es).2).getLast? =
              some Effect.close
            rw [List.getLast?_append_of_ne_nil _ hne']
            exact hrec.2.2
    · have hrun : run (some c) (e :: es) =
          (none, (step (some c) e).2 ++ []) := by
        simp [run, hdead, run_none]
      constructor
      · intro hne
        rw [hrun] at hne
        simp at hne
      · intro _
        rw [hrun]
        rcases heff with h0 | h0 <;> simp [h0, List.count_cons]

/-- Single-step destruction condition: a live connection is destroyed
by an event only when the write on it failed (`write(2)` returned
`≤ 0`), or its output FIFO is empty while `eof` holds or is being set
by the failing read, or the event is the write that completes the
last pending segment while `eof` holds. -/
theorem step_destroy_cond (c : Conn) (e : Event)
    (hd : (step (some c) e).1 = none) :
    (∃ n, e = Event.writable n ∧ n ≤ 0) ∨
    (c.oq = [] ∧ (c.eof = true ∨ ∃ n, e = Event.readable n ∧ n ≤ 0)) ∨
    (c.eof = true ∧ ∃ n h, e = Event.writable n ∧ 0 < n ∧
      c.oq = [h] ∧ h.pos + n.toNat = h.len) := by
  cases e with
  | gc =>
    by_cases h : c.eof ∧ c.oq = []
    · exact Or.inr (Or.inl ⟨h.2, Or.inl h.1⟩)
    · simp [step, h] at hd
  | readable n =>
    by_cases he : c.eof
    · simp [step, read_from_link, he] at hd
    · by_cases hn : n ≤ 0
      · by_cases hq : c.oq = []
        · exact Or.inr (Or.inl ⟨hq, Or.inr ⟨n, rfl, hn⟩⟩)
        · simp [step, read_from_link, he, hn, hq] at hd
      · simp [step, read_from_link, he, hn] at hd
  | writable n =>
    match hq : c.oq with
    | [] => simp [step, hq] at hd
    | h :: t =>
      by_cases hn : n ≤ 0
      · exact Or.inl ⟨n, rfl, hn⟩
      · by_cases hp : h.pos + n.toNat = h.len
        · by_cases ht : t = [] ∧ c.eof = true
          · refine Or.inr (Or.inr ⟨ht.2, n, h, rfl, ?_, ?_, hp⟩)
            · omega
            · rw [ht.1]
          · simp [step, hq, write_to_socket, remove_link, hn, hp, ht] at hd
        · simp [step, hq, write_to_socket, hn, hp] at hd
  | enqueue len =>
    by_cases h : len = 0 <;> simp [step, h] at hd
  | closeLink => simp [step] at hd

end Mpx

namespace Udp

theorem runIter_none (mr : Nat) (evs : List IterEvent) :
    runIter mr none evs = (none, []) := by
  induction evs with
  | nil => rfl
  | cons ev evs ih => simp [runIter, iterate, ih]

theorem gcLink_some_inv {mr : Nat} {l l₁ : Link} (hinv : LinkInv mr l)
    (hgc : (gcLink mr l).1 = some l₁) :
    LinkInv mr l₁ ∧ (∀ s ∈ l₁.oq, s.attempts < mr) := by
  obtain ⟨hle, htz⟩ := hinv
  match hq : l.oq with
  | [] =>
    have : l₁ = l := by
      by_cases hc : l.closed = true ∧ l.oq = [] <;>
        simp [gcLink, hq, hc] at hgc <;> simp_all [gcLink, hq]
    subst this
    exact ⟨⟨hle, htz⟩, by simp [hq]⟩
  | h :: t =>
    by_cases hmax : mr ≤ h.attempts
    · exfalso
      simp [gcLink, hq, hmax] at hgc
    · have hlt : h.attempts < mr := by omega
      have hmr : 0 < mr := by omega
      by_cases hdrop : 0 < h.attempts ∧ l.closed = true
      · have hl' : l₁ = { l with oq := t } := by
          by_cases hrm : l.closed = true ∧ t = [] <;>
            simp [gcLink, hq, hmax, hdrop, hrm] at hgc <;> simp_all
        subst hl'
        have hz : ∀ s ∈ t, s.attempts = 0 := by
          intro s hs
          exact htz s (by simp [hq, hs])
        refine ⟨⟨?_, ?_⟩, ?_⟩
        · intro s hs; have := hz s hs; omega
        · intro s hs
          exact hz s (List.mem_of_mem_tail hs)
        · intro s hs; have := hz s hs; omega
      · have hl' : l₁ = l := by
          by_cases hrm : l.closed = true ∧ l.oq = [] <;>
            simp [gcLink, hq, hmax, hdrop, hrm] at hgc <;> simp_all [gcLink, hq]
        subst hl'
        refine ⟨⟨hle, htz⟩, ?_⟩
        intro s hs
        rw [hq] at hs
        rcases List.mem_cons.mp hs with rfl | hs'
        · exact hlt
        · have := htz s (by simp [hq, hs'])
          omega

theorem ackDiscard_sub {l : Link} {s : Seg} (hs : s ∈ (ackDiscard l).oq) :
    s ∈ l.oq := by
  match hq : l.oq with
  | [] =>
    simp [ackDiscard, hq] at hs
  | h :: t =>
    by_cases ha : 0 < h.attempts
    · simp [ackDiscard, hq, ha] at hs
      simp [hq, hs]
    · simp [ackDiscard, hq, ha] at hs
      simp [hq, hs]

theorem ackDiscard_tailZero {l : Link}
    (htz : ∀ s ∈ l.oq.tail, s.attempts = 0) :
    ∀ s ∈ (ackDiscard l).oq.tail, s.attempts = 0 := by
  match hq : l.oq with
  | [] => simp [ackDiscard, hq]
  | h :: t =>
    by_cases ha : 0 < h.attempts
    · simp [ackDiscard, hq, ha]
      intro s hs
      have hs' : s ∈ t := List.mem_of_mem_tail hs
      exact htz s (by simp [hq, hs'])
    · simp [ackDiscard, hq, ha]
      intro s hs
      exact htz s (by simp [hq]; exact hs)

theorem read_from_udp_link_oq {l l₂ : Link} {n : Int}
    (hr : (read_from_udp_link l n).2.1 = some l₂) : l₂.oq = l.oq := by
  by_cases hc : l.closed = true
  · simp [read_from_udp_link, hc] at hr; simp [← hr]
  · by_cases hn : n < 0
    · by_cases hq : l.oq = []
      · simp [read_from_udp_link, hc, hn, hq] at hr
      · simp [read_from_udp_link, hc, hn, hq] at hr
        rw [← hr]
    · simp [read_from_udp_link, hc, hn] at hr; simp [← hr]

theorem write_to_udp_link_le {mr : Nat} {l : Link} {x : Nat}
    (hle : ∀ s ∈ l.oq, s.attempts ≤ mr) :
    ∀ s ∈ (write_to_udp_link l x).oq, s.attempts ≤ mr := by
  intro s hs
  simp [write_to_udp_link] at hs
  rcases hs with hs | rfl
  · exact hle s hs
  · exact Nat.zero_le mr

theorem write_to_udp_link_tz {l : Link} {x : Nat}
    (htz : ∀ s ∈ l.oq.tail, s.attempts = 0) :
    ∀ s ∈ (write_to_udp_link l x).oq.tail, s.attempts = 0 := by
  intro s hs
  match hq : l.oq with
  | [] => simp [write_to_udp_link, hq] at hs
  | h :: t =>
    simp [write_to_udp_link, hq] at hs
    rcases hs with hs | rfl
    · exact htz s (by simp [hq, hs])
    · rfl

theorem write_to_udp_link_lt {mr : Nat} {l : Link} {x : Nat} (hmr : 0 < mr)
    (hlt : ∀ s ∈ l.oq, s.attempts < mr) :
    ∀ s ∈ (write_to_udp_link l x).oq, s.attempts < mr := by
  intro s hs
  simp [write_to_udp_link] at hs
  rcases hs with hs | rfl
  · exact hlt s hs
  · exact hmr

theorem enqueueAll_le {mr : Nat} (lens : List Nat) {l : Link}
    (hle : ∀ s ∈ l.oq, s.attempts ≤ mr) :
    ∀ s ∈ (enqueueAll l lens).oq, s.attempts ≤ mr := by
  induction lens generalizing l with
  | nil => exact hle
  | cons x xs ih => exact ih (write_to_udp_link_le hle)

theorem enqueueAll_tz (lens : List Nat) {l : Link}
    (htz : ∀ s ∈ l.oq.tail, s.attempts = 0) :
    ∀ s ∈ (enqueueAll l lens).oq.tail, s.attempts = 0 := by
  induction lens generalizing l with
  | nil => exact htz
  | cons x xs ih => exact ih (write_to_udp_link_tz htz)

theorem enqueueAll_lt {mr : Nat} (lens : List Nat) {l : Link} (hmr : 0 < mr)
    (hlt : ∀ s ∈ l.oq, s.attempts < mr) :
    ∀ s ∈ (enqueueAll l lens).oq, s.attempts < mr := by
  induction lens generalizing l with
  | nil => exact hlt
  | cons x xs ih => exact ih (write_to_udp_link_lt hmr hlt)

theorem pollinStep_inv {mr : Nat} {l₁ l₂ : Link} {n : Int} {lens : List Nat}
    (hle : ∀ s ∈ l₁.oq, s.attempts ≤ mr)
    (htz : ∀ s ∈ l₁.oq.tail, s.attempts = 0)
    (hlt : ∀ s ∈ l₁.oq, s.attempts < mr)
    (hp : (pollinStep l₁ n lens).1 = some l₂) :
    (∀ s ∈ l₂.oq, s.attempts ≤ mr) ∧ (∀ s ∈ l₂.oq.tail, s.attempts = 0) ∧
    (0 < mr → ∀ s ∈ l₂.oq, s.attempts < mr) := by
  have hle' : ∀ s ∈ (ackDiscard l₁).oq, s.attempts ≤ mr :=
    fun s hs => hle s (ackDiscard_sub hs)
  have hlt' : ∀ s ∈ (ackDiscard l₁).oq, s.attempts < mr :=
    fun s hs => hlt s (ackDiscard_sub hs)
  have htz' := ackDiscard_tailZero htz
  cases hrr : (read_from_udp_link (ackDiscard l₁) n).2.1 with
  | none =>
    exfalso
    simp only [pollinStep] at hp
    rw [hrr] at hp
    simp at hp
  | some lr =>
    have hoq := read_from_udp_link_oq hrr
    have hle'' : ∀ s ∈ lr.oq, s.attempts ≤ mr := by rw [hoq]; exact hle'
    have hlt'' : ∀ s ∈ lr.oq, s.attempts < mr := by rw [hoq]; exact hlt'
    have htz'' : ∀ s ∈ lr.oq.tail, s.attempts = 0 := by rw [hoq]; exact htz'
    have hl₂ : l₂ = enqueueAll lr lens := by
      simp only [pollinStep] at hp
      rw [hrr] at hp
      simp at hp
      exact hp.symm
    subst hl₂
    exact ⟨enqueueAll_le lens hle'', enqueueAll_tz lens htz'',
      fun hmr => enqueueAll_lt lens hmr hlt''⟩

theorem write_to_socket_inv {mr : Nat} {l₂ l₃ : Link} {h : Seg} {t : List Seg}
    {n : Int} (hq : l₂.oq = h :: t)
    (hlt : ∀ s ∈ l₂.oq, s.attempts < mr)
    (htz : ∀ s ∈ l₂.oq.tail, s.attempts = 0)
    (hw : (write_to_socket l₂ h t n).1 = some l₃) : LinkInv mr l₃ := by
  by_cases hn : n < 0
  · simp [write_to_socket, hn] at hw
  · by_cases ht : t = []
    · have hl₃ : l₃ = { l₂ with oq := [{ h with attempts := h.attempts + 1 }] } := by
        simp [write_to_socket, hn, ht] at hw
        exact hw.symm
      subst hl₃
      have hh : h.attempts < mr := hlt h (by simp [hq])
      constructor
      · intro s hs
        simp at hs
        subst hs
        simpa using hh
      · intro s hs
        simp at hs
    · have hl₃ : l₃ = { l₂ with oq := t } := by
        simp [write_to_socket, hn, ht] at hw
        exact hw.symm
      subst hl₃
      have hz : ∀ s ∈ t, s.attempts = 0 := by
        intro s hs
        exact htz s (by simp [hq, hs])
      constructor
      · intro s hs
        simp at hs
        have := hz s hs
        have hh : h.attempts < mr := hlt h (by simp [hq])
        omega
      · intro s hs
        simp at hs
        exact hz s (List.mem_of_mem_tail hs)

theorem subscribedPollout_ne_nil {l : Link}
    (hs : subscribedPollout l = true) : l.oq ≠ [] := by
  intro hq
  simp [subscribedPollout, hq] at hs

theorem timeoutTick_inv {mr : Nat} {l : Link} (hinv : LinkInv mr l) :
    LinkInv mr (timeoutTick l) := by
  obtain ⟨hle, htz⟩ := hinv
  match hq : l.oq with
  | [] => simpa [timeoutTick, hq] using ⟨hle, htz⟩
  | h :: t =>
    by_cases hc : h.timeouts < h.attempts ∧ subscribedPollout l = true
    · simp only [timeoutTick, hq, hc, and_self, if_pos]
      constructor
      · intro s hs
        simp at hs
        rcases hs with rfl | hs
        · simpa using hle h (by simp [hq])
        · exact hle s (by simp [hq, hs])
      · intro s hs
        simp at hs
        exact htz s (by simp [hq]; exact hs)
    · simpa [timeoutTick, hq, hc] using ⟨hle, htz⟩

theorem subscribed_pos {mr : Nat} {l₁ : Link}
    (hlt1 : ∀ s ∈ l₁.oq, s.attempts < mr)
    (hsub : subscribedPollout l₁ = true) : 0 < mr := by
  match hq1 : l₁.oq with
  | [] => exact absurd hq1 (subscribedPollout_ne_nil hsub)
  | h :: t =>
    have := hlt1 h (by simp [hq1])
    omega

theorem iterate_inv {mr : Nat} {l l₃ : Link} {ev : IterEvent}
    (hinv : LinkInv mr l) (hit : (iterate mr (some l) ev).1 = some l₃) :
    LinkInv mr l₃ := by
  cases hgc : (gcLink mr l).1 with
  | none =>
    simp only [iterate, hgc] at hit
    simp at hit
  | some l₁ =>
    obtain ⟨⟨hle1, htz1⟩, hlt1⟩ := gcLink_some_inv hinv hgc
    cases ev with
    | timeout =>
      simp only [iterate, hgc] at hit
      simp at hit
      rw [← hit]
      exact timeoutTick_inv ⟨hle1, htz1⟩
    | io readEv writeEv =>
      rcases readEv with _ | ⟨n₀, lens⟩
      -- case readEv = none: the middle state is `l₁` itself
      · cases writeEv with
        | none =>
          simp only [iterate, hgc] at hit
          simp at hit
          rw [← hit]
          exact ⟨hle1, htz1⟩
        | some n =>
          simp only [iterate, hgc] at hit
          by_cases hsub : subscribedPollout l₁ = true
          · rw [if_pos hsub] at hit
            have hmr : 0 < mr := subscribed_pos hlt1 hsub
            cases hq2 : l₁.oq with
            | nil =>
              rw [hq2] at hit
              simp at hit
              rw [← hit]
              exact ⟨hle1, htz1⟩
            | cons h t =>
              rw [hq2] at hit
              simp only at hit
              exact write_to_socket_inv hq2 hlt1 htz1 hit
          · rw [if_neg hsub] at hit
            simp at hit
            rw [← hit]
            exact ⟨hle1, htz1⟩
      -- case readEv = some (n₀, lens)
      · cases writeEv with
        | none =>
          simp only [iterate, hgc] at hit
          cases hps : (pollinStep l₁ n₀ lens).1 with
          | none =>
            rw [hps] at hit
            simp at hit
          | some l₂ =>
            rw [hps] at hit
            obtain ⟨hle2, htz2, hlt2⟩ := pollinStep_inv hle1 htz1 hlt1 hps
            simp at hit
            rw [← hit]
            exact ⟨hle2, htz2⟩
        | some n =>
          simp only [iterate, hgc] at hit
          cases hps : (pollinStep l₁ n₀ lens).1 with
          | none =>
            rw [hps] at hit
            simp at hit
          | some l₂ =>
            rw [hps] at hit
            obtain ⟨hle2, htz2, hlt2⟩ := pollinStep_inv hle1 htz1 hlt1 hps
            simp only at hit
            by_cases hsub : subscribedPollout l₁ = true
            · rw [if_pos hsub] at hit
              have hmr : 0 < mr := subscribed_pos hlt1 hsub
              cases hq2 : l₂.oq with
              | nil =>
                rw [hq2] at hit
                simp at hit
                rw [← hit]
                exact ⟨hle2, htz2⟩
              | cons h t =>
                rw [hq2] at hit
                simp only at hit
                exact write_to_socket_inv hq2 (hlt2 hmr) htz2 hit
            · rw [if_neg hsub] at hit
              simp at hit
              rw [← hit]
              exact ⟨hle2, htz2⟩

theorem runIter_inv {mr : Nat} {l l' : Link} (evs : List IterEvent)
    (hinv : LinkInv mr l)
    (hr : (runIter mr (some l) evs).1 = some l') : LinkInv mr l' := by
  induction evs generalizing l with
  | nil =>
    simp [runIter] at hr
    rw [← hr]
    exact hinv
  | cons ev evs ih =>
    simp only [runIter] at hr
    cases hi : (iterate mr (some l) ev).1 with
    | none =>
      rw [hi, runIter_none] at hr
      simp at hr
    | some l₁ =>
      rw [hi] at hr
      exact ih (iterate_inv hinv hi) hr

end Udp

namespace Sd

theorem syncAfter_eq (n : Nat) :
    ∀ k, 1 ≤ k → k ≤ n + 1 → syncAfter (n + 1) k = n + 1 - k := by
  intro k
  induction k with
  | zero => intro h1 _; exact absurd h1 (by omega)
  | succ k ih =>
    intro _ h2
    rcases Nat.eq_zero_or_pos k with hk0 | hkpos
    · subst hk0
      simp [syncAfter, barrierEnter]
    · have hik := ih hkpos (by omega)
      show barrierEnter (n + 1) (syncAfter (n + 1) k) = n + 1 - (k + 1)
      rw [hik, barrierEnter, if_neg (by omega)]
      omega

theorem countReleases_eq (n : Nat) :
    ∀ m, m ≤ n + 1 →
      countReleases (n + 1) m = if m = n + 1 then 1 else 0 := by
  intro m
  induction m with
  | zero =>
    intro _
    rw [if_neg (by omega)]
    rfl
  | succ m ih =>
    intro h2
    have hsync : syncAfter (n + 1) (m + 1) = n + 1 - (m + 1) :=
      syncAfter_eq n (m + 1) (by omega) h2
    have hi := ih (Nat.le_of_succ_le h2)
    show countReleases (n + 1) m +
        (if syncAfter (n + 1) (m + 1) = 0 then 1 else 0) = _
    rw [hi, hsync]
    split_ifs <;> omega

end Sd

namespace Sb

theorem memmove_length {s : List Nat} {o c : Nat} (h : o + c ≤ s.length) :
    (memmove s o c).length = s.length := by
  simp [memmove]
  omega

theorem memmove_take {s : List Nat} {o c : Nat} (h : o + c ≤ s.length) :
    (memmove s o c).take c = (s.drop o).take c := by
  have hlen : ((s.drop o).take c).length = c := by
    simp
    omega
  rw [show memmove s o c = (s.drop o).take c ++ s.drop c from rfl,
    List.take_left' hlen]

theorem compact_spec (b0 : SlidingBuffer) (hol : b0.offset ≤ b0.sa.len)
    (hla : b0.sa.len ≤ b0.sa.a) (hsa : b0.sa.s.length = b0.sa.a) :
    (sliding_buffer_compact b0).offset ≤ (sliding_buffer_compact b0).sa.len ∧
    (sliding_buffer_compact b0).sa.len ≤ (sliding_buffer_compact b0).sa.a ∧
    (sliding_buffer_compact b0).sa.s.length = (sliding_buffer_compact b0).sa.a ∧
    (sliding_buffer_compact b0).sa.a = b0.sa.a ∧
    (sliding_buffer_compact b0).sa.len - (sliding_buffer_compact b0).offset =
      b0.sa.len - b0.offset ∧
    unread (sliding_buffer_compact b0) = unread b0 := by
  by_cases h0 : b0.sa.len - b0.offset = 0
  · have hb : sliding_buffer_compact b0 =
        { b0 with offset := 0, sa := { b0.sa with len := 0 } } := by
      simp [sliding_buffer_compact, h0]
    refine ⟨by simp [hb], by simp [hb], by simp [hb, hsa], by simp [hb],
      by simp [hb]; omega, ?_⟩
    simp [unread, hb, h0]
  · by_cases hsh : THRESHOLD ≤ b0.offset ∧ b0.sa.len - b0.offset ≤ THRESHOLD
    · have hmem : b0.offset + (b0.sa.len - b0.offset) ≤ b0.sa.s.length := by
        omega
      have hb : sliding_buffer_compact b0 =
          { offset := 0,
            sa := { b0.sa with
              s := memmove b0.sa.s b0.offset (b0.sa.len - b0.offset),
              len := b0.sa.len - b0.offset } } := by
        simp [sliding_buffer_compact, h0, hsh]
      refine ⟨by simp [hb], by simp [hb]; omega,
        by simp [hb, memmove_length hmem, hsa], by simp [hb],
        by simp [hb], ?_⟩
      simp only [unread, hb, List.drop_zero, Nat.sub_zero]
      exact memmove_take hmem
    · have hb : sliding_buffer_compact b0 = b0 := by
        simp only [sliding_buffer_compact]
        rw [if_neg h0, if_neg hsh]
      rw [hb]
      exact ⟨hol, hla, hsa, rfl, rfl, rfl⟩

theorem readyplus_spec (sa : Stralloc) (n : Nat) (h : sa.len ≤ sa.a)
    (hs : sa.s.length = sa.a) :
    (stralloc_readyplus sa n).len = sa.len ∧
    sa.len + n ≤ (stralloc_readyplus sa n).a ∧
    (stralloc_readyplus sa n).s.length = (stralloc_readyplus sa n).a ∧
    (stralloc_readyplus sa n).s.take sa.len = sa.s.take sa.len := by
  by_cases hfits : sa.len + n ≤ sa.a
  · have hb : stralloc_readyplus sa n = sa := by
      simp only [stralloc_readyplus]
      rw [if_pos hfits]
    rw [hb]
    exact ⟨rfl, hfits, hs, rfl⟩
  · have hb : stralloc_readyplus sa n =
        { s := sa.s.take sa.len ++ List.replicate n 0,
          len := sa.len, a := sa.len + n } := by
      simp only [stralloc_readyplus]
      rw [if_neg hfits]
    rw [hb]
    refine ⟨rfl, Nat.le_refl _, ?_, ?_⟩
    · simp
      omega
    · have hlen : (sa.s.take sa.len).length = sa.len := by
        simp
        omega
      exact List.take_left' hlen

theorem fit_spec (b1 : SlidingBuffer) (minspace lenv : Nat)
    (h1 : b1.offset ≤ b1.sa.len) (h2 : b1.sa.len ≤ b1.sa.a)
    (h3 : b1.sa.s.length = b1.sa.a) (h4 : b1.sa.len - b1.offset = lenv) :
    (sliding_buffer_fit b1 minspace lenv).2 = true ∧
    (sliding_buffer_fit b1 minspace lenv).1.offset ≤
      (sliding_buffer_fit b1 minspace lenv).1.sa.len ∧
    minspace ≤ (sliding_buffer_fit b1 minspace lenv).1.sa.a -
      (sliding_buffer_fit b1 minspace lenv).1.sa.len ∧
    unread (sliding_buffer_fit b1 minspace lenv).1 = unread b1 ∧
    (sliding_buffer_fit b1 minspace lenv).1.sa.len ≤
      (sliding_buffer_fit b1 minspace lenv).1.sa.a ∧
    (sliding_buffer_fit b1 minspace lenv).1.sa.s.length =
      (sliding_buffer_fit b1 minspace lenv).1.sa.a := by
  by_cases hfit : minspace ≤ b1.sa.a - b1.sa.len
  · have hb : sliding_buffer_fit b1 minspace lenv = (b1, true) := by
      simp only [sliding_buffer_fit]
      rw [if_pos hfit]
    rw [hb]
    exact ⟨rfl, h1, hfit, rfl, h2, h3⟩
  · by_cases hgrow : b1.sa.a - b1.sa.len + b1.offset < minspace
    · have hb : sliding_buffer_fit b1 minspace lenv =
          ({ b1 with sa := stralloc_readyplus b1.sa minspace }, true) := by
        simp only [sliding_buffer_fit]
        rw [if_neg hfit, if_pos hgrow]
      rw [hb]
      obtain ⟨hr1, hr2, hr3, hr4⟩ :=
        readyplus_spec b1.sa minspace h2 h3
      refine ⟨rfl, ?_, ?_, ?_, ?_, hr3⟩
      · show b1.offset ≤ (stralloc_readyplus b1.sa minspace).len
        rw [hr1]
        exact h1
      · show minspace ≤ (stralloc_readyplus b1.sa minspace).a -
          (stralloc_readyplus b1.sa minspace).len
        rw [hr1]
        omega
      · show ((stralloc_readyplus b1.sa minspace).s.drop b1.offset).take
            ((stralloc_readyplus b1.sa minspace).len - b1.offset) =
          unread b1
        rw [hr1, unread, ← List.drop_take, ← List.drop_take, hr4]
      · show (stralloc_readyplus b1.sa minspace).len ≤
          (stralloc_readyplus b1.sa minspace).a
        rw [hr1]
        omega
    · have hb : sliding_buffer_fit b1 minspace lenv =
          (({ offset := 0,
              sa := { b1.sa with
                s := memmove b1.sa.s b1.offset lenv,
                len := lenv } } : SlidingBuffer), true) := by
        simp only [sliding_buffer_fit]
        rw [if_neg hfit, if_neg hgrow]
      rw [hb]
      have hmem : b1.offset + lenv ≤ b1.sa.s.length := by omega
      refine ⟨rfl, Nat.zero_le _, by simp; omega, ?_, by simp; omega, ?_⟩
      · show ((memmove b1.sa.s b1.offset lenv).drop 0).take (lenv - 0) =
          unread b1
        rw [List.drop_zero, Nat.sub_zero, unread, ← h4]
        rw [h4]
        exact memmove_take hmem
      · show (memmove b1.sa.s b1.offset lenv).length = b1.sa.a
        rw [memmove_length hmem]
        exact h3

end Sb

/-- C1, counterexample: a connection whose peer makes `write(2)` fail
(return 0 here) is destroyed at once by `write_to_socket`
(`multiplexor.c:263-264`) — the close handler runs and the descriptor
is closed — even though its `eof` flag is not set and its output FIFO
still holds an unwritten segment, so pending writes do not drain
before destruction. -/
theorem C1_counterexample :
    (Mpx.step (some { eof := false, oq := [{ len := 5, pos := 0 }] })
        (Mpx.Event.writable 0)).1 = none ∧
    (Mpx.step (some { eof := false, oq := [{ len := 5, pos := 0 }] })
        (Mpx.Event.writable 0)).2 =
      [Mpx.Effect.closeFd, Mpx.Effect.close] ∧
    ({ eof := false, oq := [{ len := 5, pos := 0 }] } : Mpx.Conn).eof = false ∧
    ({ eof := false, oq := [{ len := 5, pos := 0 }] } : Mpx.Conn).oq ≠ [] := by
  decide

/-- C1 (amended): for every connection ever accepted by
`run_multiplexor`, over any trace of loop events the close handler is
invoked at most once and the descriptor is closed at most once; when
the connection is destroyed the close handler has run exactly once
and its invocation is the last effect delivered for the connection;
and destruction happens only when the output FIFO has drained while
`eof` holds (or is being set by the failing read, or the final
segment completes in the destroying write) — or immediately when a
write on the connection fails, in which case pending segments are
discarded. -/
theorem C1_connection_lifecycle (c : Mpx.Conn) (es : List Mpx.Event) :
    (Mpx.run (some c) es).2.count Mpx.Effect.close ≤ 1 ∧
    (Mpx.run (some c) es).2.count Mpx.Effect.closeFd ≤ 1 ∧
    ((Mpx.run (some c) es).1 = none →
      (Mpx.run (some c) es).2.count Mpx.Effect.close = 1 ∧
      (Mpx.run (some c) es).2.getLast? = some Mpx.Effect.close) ∧
    (∀ (c' : Mpx.Conn) (e : Mpx.Event), (Mpx.step (some c') e).1 = none →
      (∃ n, e = Mpx.Event.writable n ∧ n ≤ 0) ∨
      (c'.oq = [] ∧ (c'.eof = true ∨ ∃ n, e = Mpx.Event.readable n ∧ n ≤ 0)) ∨
      (c'.eof = true ∧ ∃ n h, e = Mpx.Event.writable n ∧ 0 < n ∧
        c'.oq = [h] ∧ h.pos + n.toNat = h.len)) := by
  have hspec := Mpx.run_close_spec es c
  refine ⟨?_, ?_, fun hne => ⟨(hspec.2 hne).1, (hspec.2 hne).2.2⟩,
    fun c' e hd => Mpx.step_destroy_cond c' e hd⟩
  · cases hfin : (Mpx.run (some c) es).1 with
    | none => exact le_of_eq (hspec.2 hfin).1
    | some c' =>
      have := (hspec.1 (by simp [hfin])).1
      omega
  · cases hfin : (Mpx.run (some c) es).1 with
    | none => exact le_of_eq (hspec.2 hfin).2.1
    | some c' =>
      have := (hspec.1 (by simp [hfin])).2
      omega

/-- C1, witness: on the concrete trace `close_link` then the weeding
pass of `setup_polls`, the fresh connection is destroyed, the close
handler runs exactly once and last, and the concrete destroying step
satisfies the destruction condition. -/
theorem C1_witness :
    ((Mpx.run (some Mpx.freshConn)
        [Mpx.Event.closeLink, Mpx.Event.gc]).2.count Mpx.Effect.close = 1 ∧
     (Mpx.run (some Mpx.freshConn)
        [Mpx.Event.closeLink, Mpx.Event.gc]).2.getLast? =
          some Mpx.Effect.close) ∧
    ((∃ n, Mpx.Event.gc = Mpx.Event.writable n ∧ n ≤ 0) ∨
     (({ eof := true, oq := [] } : Mpx.Conn).oq = [] ∧
       (({ eof := true, oq := [] } : Mpx.Conn).eof = true ∨
        ∃ n, Mpx.Event.gc = Mpx.Event.readable n ∧ n ≤ 0)) ∨
     (({ eof := true, oq := [] } : Mpx.Conn).eof = true ∧
       ∃ n h, Mpx.Event.gc = Mpx.Event.writable n ∧ 0 < n ∧
         ({ eof := true, oq := [] } : Mpx.Conn).oq = [h] ∧
         h.pos + n.toNat = h.len)) := by
  have h := C1_connection_lifecycle Mpx.freshConn
    [Mpx.Event.closeLink, Mpx.Event.gc]
  exact ⟨h.2.2.1 (by decide),
    h.2.2.2 { eof := true, oq := [] } Mpx.Event.gc (by decide)⟩

/-- C9: `read_from_link` (`multiplexor.c:248-249`) on a connection
whose `eof` flag is already set returns 0 immediately: no read is
performed, the connection state is unchanged, and no effect — in
particular no second close-handler invocation and no removal — is
emitted. -/
theorem C9_read_after_eof (c : Mpx.Conn) (n : Int) (h : c.eof = true) :
    Mpx.read_from_link c n = (0, some c, []) := by
  simp [Mpx.read_from_link, h]

/-- C9, witness: concrete evaluation on a connection with `eof` set
and a pending output segment. -/
theorem C9_witness :
    Mpx.read_from_link { eof := true, oq := [{ len := 4, pos := 1 }] } (-3) =
      (0, some { eof := true, oq := [{ len := 4, pos := 1 }] }, []) :=
  C9_read_after_eof { eof := true, oq := [{ len := 4, pos := 1 }] } (-3) rfl

/-- C2: in the UDP session server, every segment of a link's output
queue satisfies `attempts ≤ max_retries` at every iteration of the
event loop (stated for the final state of an arbitrary event trace
from a fresh link, which covers every reachable state since traces
are prefix-closed); and when the head segment's `attempts` reaches
`max_retries` (no intervening inbound datagram has discarded it), the
weeding pass of `setup_polls` discards the entire output queue, marks
the link closed, and removes it, invoking the close handler. -/
theorem C2_udp_retry_budget (mr : Nat) (evs : List Udp.IterEvent) :
    (∀ l', (Udp.runIter mr (some Udp.freshLink) evs).1 = some l' →
       ∀ s ∈ l'.oq, s.attempts ≤ mr) ∧
    (∀ (l : Udp.Link) (h : Udp.Seg) (t : List Udp.Seg),
       l.oq = h :: t → mr ≤ h.attempts →
       Udp.gcLink mr l = (none, [Udp.Effect.closeFd, Udp.Effect.close])) := by
  constructor
  · intro l' hl'
    have hfresh : Udp.LinkInv mr Udp.freshLink := by
      constructor <;> intro s hs <;> simp [Udp.freshLink] at hs
    exact (Udp.runIter_inv evs hfresh hl').1
  · intro l h t hq hmax
    simp [Udp.gcLink, hq, hmax]

/-- C2, witness: a fresh link that receives a datagram, enqueues one
response and sends it (`max_retries = 1`) ends with `attempts = 1 ≤
1`; and a link whose head has exhausted the budget is discarded,
closed and removed by the weeding pass. -/
theorem C2_witness :
    (∀ s ∈ ({ closed := false, oq := [{ len := 3, attempts := 1, timeouts := 0 }] } :
        Udp.Link).oq, s.attempts ≤ 1) ∧
    Udp.gcLink 1 { closed := false, oq := [{ len := 2, attempts := 1, timeouts := 1 }] } =
      (none, [Udp.Effect.closeFd, Udp.Effect.close]) := by
  have h := C2_udp_retry_budget 1
    [Udp.IterEvent.io (some (5, [3])) none, Udp.IterEvent.io none (some 0)]
  exact ⟨h.1 { closed := false, oq := [{ len := 3, attempts := 1, timeouts := 0 }] }
      (by decide),
    h.2 { closed := false, oq := [{ len := 2, attempts := 1, timeouts := 1 }] }
      { len := 2, attempts := 1, timeouts := 1 } [] rfl (by decide)⟩

/-- C6: in `write_to_socket` of the UDP session server, on a
write-ready event the head output segment is sent; when at least one
more segment is queued behind it the head is popped immediately after
sending (only the last enqueued segment is ever retained for
retransmission); when it is the only queued segment its `attempts`
counter is incremented and it is retained awaiting acknowledgement. -/
theorem C6_udp_write_ready (l : Udp.Link) (h : Udp.Seg) (t : List Udp.Seg)
    (n : Int) (hn : 0 ≤ n) :
    (Udp.write_to_socket l h t n).2 = [Udp.Effect.send h] ∧
    (t ≠ [] → Udp.write_to_socket l h t n =
      (some { l with oq := t }, [Udp.Effect.send h])) ∧
    (t = [] → Udp.write_to_socket l h t n =
      (some { l with oq := [{ h with attempts := h.attempts + 1 }] },
       [Udp.Effect.send h])) := by
  have hn' : ¬n < 0 := by omega
  refine ⟨?_, fun ht => ?_, fun ht => ?_⟩
  · by_cases ht : t = [] <;> simp [Udp.write_to_socket, hn', ht]
  · simp [Udp.write_to_socket, hn', ht]
  · simp [Udp.write_to_socket, hn', ht]

/-- C6, witness: concrete evaluations of both branches. -/
theorem C6_witness :
    Udp.write_to_socket { closed := false, oq := [{ len := 4, attempts := 0, timeouts := 0 },
        { len := 7, attempts := 0, timeouts := 0 }] }
      { len := 4, attempts := 0, timeouts := 0 }
      [{ len := 7, attempts := 0, timeouts := 0 }] 2 =
      (some { closed := false, oq := [{ len := 7, attempts := 0, timeouts := 0 }] },
       [Udp.Effect.send { len := 4, attempts := 0, timeouts := 0 }]) ∧
    Udp.write_to_socket { closed := false, oq := [{ len := 4, attempts := 0, timeouts := 0 }] }
      { len := 4, attempts := 0, timeouts := 0 } [] 2 =
      (some { closed := false, oq := [{ len := 4, attempts := 1, timeouts := 0 }] },
       [Udp.Effect.send { len := 4, attempts := 0, timeouts := 0 }]) := by
  constructor
  · exact (C6_udp_write_ready _ _ _ 2 (by decide)).2.1 (by decide)
  · exact (C6_udp_write_ready _ _ _ 2 (by decide)).2.2 rfl

/-- C3: for a shared domain with `N = n + 1` participants that is not
terminating, when every participant calls `sd_barrier` each call
returns true, exactly one entrant broadcasts `wait_for_barrier` per
round, the first entrant observes `sync_count == 0` and sets it to
`N - 1`, every subsequent entrant decrements it, and at release
`sync_count` is 0 again so a fresh round may follow. -/
theorem C3_barrier_round (n : Nat) :
    (∀ k, k < n + 1 → Sd.participantReturn false (n + 1) k = true) ∧
    Sd.syncAfter (n + 1) 1 = n ∧
    (∀ j, 1 ≤ j → j ≤ n →
      Sd.syncAfter (n + 1) (j + 1) = Sd.syncAfter (n + 1) j - 1) ∧
    Sd.countReleases (n + 1) (n + 1) = 1 ∧
    Sd.syncAfter (n + 1) (n + 1) = 0 := by
  have hsync := Sd.syncAfter_eq n
  refine ⟨?_, ?_, ?_, ?_, ?_⟩
  · intro k hk
    rcases Nat.lt_or_ge k n with hkn | hkn
    · have h1 : Sd.syncAfter (n + 1) (k + 1) = n + 1 - (k + 1) :=
        hsync (k + 1) (by omega) (by omega)
      have h2 : Sd.syncAfter (n + 1) (k + 1) ≠ 0 := by omega
      simp only [Sd.participantReturn, if_neg h2, Bool.false_eq_true,
        if_false]
      rw [List.any_eq_true]
      refine ⟨n, List.mem_range.mpr (by omega), ?_⟩
      have h3 : Sd.syncAfter (n + 1) (n + 1) = 0 := by
        have := hsync (n + 1) (by omega) (by omega)
        omega
      simp [h3]
      omega
    · have hkn' : k = n := by omega
      rw [hkn']
      have h3 : Sd.syncAfter (n + 1) (n + 1) = 0 := by
        have := hsync (n + 1) (by omega) (by omega)
        omega
      simp [Sd.participantReturn, h3]
  · simp [Sd.syncAfter, Sd.barrierEnter]
  · intro j hj1 hjn
    have h1 := hsync j (by omega) (by omega)
    have h2 := hsync (j + 1) (by omega) (by omega)
    omega
  · have := Sd.countReleases_eq n (n + 1) (by omega)
    simpa using this
  · have := hsync (n + 1) (by omega) (by omega)
    omega

/-- C3, witness: a round with three participants — every call returns
true, there is exactly one broadcast, the first entrant sets
`sync_count` to 2, and the counter is 0 again at release. -/
theorem C3_witness :
    Sd.participantReturn false 3 0 = true ∧
    Sd.participantReturn false 3 1 = true ∧
    Sd.participantReturn false 3 2 = true ∧
    Sd.countReleases 3 3 = 1 ∧
    Sd.syncAfter 3 3 = 0 := by
  have h := C3_barrier_round 2
  exact ⟨h.1 0 (by omega), h.1 1 (by omega), h.1 2 (by omega),
    h.2.2.2.1, h.2.2.2.2⟩

/-- C4, counterexample: `sd_write` with a zero-length buffer returns
`true` (`shared_domain.c:507`), not `false` as the claim states; the
shared state is unchanged. -/
theorem C4_counterexample :
    Sd.sd_write Sd.sampleDomain 0 [] = some (true, Sd.sampleDomain) ∧
    Sd.sd_read Sd.sampleDomain 0 0 = some (true, [], Sd.sampleDomain) := by
  constructor <;> rfl

/-- C4 (amended): `sd_write` with a recipient rank out of range
`[0, N)` and a non-empty buffer returns `false` with the shared state
unchanged; `sd_write` and `sd_read` with a zero-length buffer return
`true` — not `false` — immediately, also with the shared state
unchanged (in `sd_write` the zero-length check precedes the range
check, so even an out-of-range rank yields `true` at length 0). -/
theorem C4_protocol_violations (sd : Sd.Domain) (k x r : Nat)
    (xs : List Nat) :
    Sd.sd_write sd (sd.nofprocesses + k) (x :: xs) = some (false, sd) ∧
    Sd.sd_write sd r [] = some (true, sd) ∧
    Sd.sd_read sd r 0 = some (true, [], sd) := by
  refine ⟨?_, ?_, ?_⟩
  · rw [Sd.sd_write, if_neg (by simp), if_pos (by omega)]
  · simp [Sd.sd_write]
  · simp [Sd.sd_read]

/-- C10: `sd_shutdown` succeeds at most once per shared domain: the
first call through the creator handle sets the `terminating` flag,
broadcasts every condition variable of the domain and returns true;
a later call through the creator handle finds the flag set and
returns false without broadcasting, leaving the flag set; a call
through a non-creator handle returns false without broadcasting and
without touching the state. -/
theorem C10_shutdown_once (sd : Sd.Domain) :
    (sd.terminating = false →
      Sd.sd_shutdown true sd =
        (true, { sd with terminating := true },
         Sd.shutdownBroadcasts sd.nofprocesses)) ∧
    (sd.terminating = true →
      Sd.sd_shutdown true sd = (false, sd, [])) ∧
    Sd.sd_shutdown false sd = (false, sd, []) := by
  refine ⟨fun h => ?_, fun h => ?_, ?_⟩
  · simp [Sd.sd_shutdown, h]
  · cases sd
    simp only at h
    subst h
    simp [Sd.sd_shutdown]
  · simp [Sd.sd_shutdown]

/-- C10, witness: on a concrete two-participant domain the creator's
first shutdown succeeds and broadcasts all nine condition variables;
the second shutdown and a non-creator shutdown fail without
broadcasting. -/
theorem C10_witness :
    Sd.sd_shutdown true
      { nofprocesses := 2, bufsize := 1, syncCount := 0,
        terminating := false, buffers := [] } =
      (true,
       { nofprocesses := 2, bufsize := 1, syncCount := 0,
         terminating := true, buffers := [] },
       Sd.shutdownBroadcasts 2) ∧
    Sd.sd_shutdown true
      { nofprocesses := 2, bufsize := 1, syncCount := 0,
        terminating := true, buffers := [] } =
      (false,
       { nofprocesses := 2, bufsize := 1, syncCount := 0,
         terminating := true, buffers := [] }, []) ∧
    Sd.sd_shutdown false
      { nofprocesses := 2, bufsize := 1, syncCount := 0,
        terminating := false, buffers := [] } =
      (false,
       { nofprocesses := 2, bufsize := 1, syncCount := 0,
         terminating := false, buffers := [] }, []) := by
  refine ⟨?_, ?_, ?_⟩
  · exact (C10_shutdown_once _).1 rfl
  · exact (C10_shutdown_once _).2.1 rfl
  · exact (C10_shutdown_once _).2.2

/-- C8: for every sliding buffer satisfying the invariants
`offset ≤ len ≤ a` with allocation size `a`, and every requested
minimum space, `sliding_buffer_ready` succeeds, leaves the unread
byte sequence (positions `[offset, len)`) unchanged as a sequence
(possibly relocated to the front), re-establishes `offset ≤ len`,
and guarantees at least `minspace` free bytes of capacity after
`len`. -/
theorem C8_sliding_buffer_ready (b : Sb.SlidingBuffer) (minspace : Nat)
    (hol : b.offset ≤ b.sa.len) (hla : b.sa.len ≤ b.sa.a)
    (hsa : b.sa.s.length = b.sa.a) :
    (Sb.sliding_buffer_ready b minspace).2 = true ∧
    Sb.unread (Sb.sliding_buffer_ready b minspace).1 = Sb.unread b ∧
    (Sb.sliding_buffer_ready b minspace).1.offset ≤
      (Sb.sliding_buffer_ready b minspace).1.sa.len ∧
    minspace ≤ (Sb.sliding_buffer_ready b minspace).1.sa.a -
      (Sb.sliding_buffer_ready b minspace).1.sa.len := by
  obtain ⟨hc1, hc2, hc3, _, hc5, hc6⟩ := Sb.compact_spec b hol hla hsa
  obtain ⟨hf1, hf2, hf3, hf4, _, _⟩ :=
    Sb.fit_spec (Sb.sliding_buffer_compact b) minspace
      (b.sa.len - b.offset) hc1 hc2 hc3 hc5
  exact ⟨hf1, by rw [show Sb.sliding_buffer_ready b minspace =
      Sb.sliding_buffer_fit (Sb.sliding_buffer_compact b) minspace
        (b.sa.len - b.offset) from rfl, hf4, hc6],
    hf2, hf3⟩

/-- C8, witness: a concrete buffer (offset 2, length 3, capacity 4,
allocation `[9, 8, 7, 6]`) asked for 5 free bytes: the call succeeds,
the unread byte `[6]` is preserved, and 5 bytes are free. -/
theorem C8_witness :
    (Sb.sliding_buffer_ready
      { offset := 2, sa := { s := [9, 8, 7, 6], len := 3, a := 4 } } 5).2
      = true ∧
    Sb.unread (Sb.sliding_buffer_ready
      { offset := 2, sa := { s := [9, 8, 7, 6], len := 3, a := 4 } } 5).1 =
      Sb.unread
        ({ offset := 2, sa := { s := [9, 8, 7, 6], len := 3, a := 4 } } :
          Sb.SlidingBuffer) ∧
    (Sb.sliding_buffer_ready
      { offset := 2, sa := { s := [9, 8, 7, 6], len := 3, a := 4 } } 5).1.offset ≤
      (Sb.sliding_buffer_ready
        { offset := 2, sa := { s := [9, 8, 7, 6], len := 3, a := 4 } } 5).1.sa.len ∧
    5 ≤ (Sb.sliding_buffer_ready
        { offset := 2, sa := { s := [9, 8, 7, 6], len := 3, a := 4 } } 5).1.sa.a -
      (Sb.sliding_buffer_ready
        { offset := 2, sa := { s := [9, 8, 7, 6], len := 3, a := 4 } } 5).1.sa.len :=
  C8_sliding_buffer_ready
    { offset := 2, sa := { s := [9, 8, 7, 6], len := 3, a := 4 } } 5
    (by decide) (by decide) (by decide)

/-- C5, counterexample: with a live connection, a poll failure makes
`run_multiplexor` return at `multiplexor.c:303` without reaching the
restoring `sigaction` call at line 322 — the prior SIGPIPE
disposition is not restored on that exit path (third component
`false`), contradicting the claim that it is restored on every exit
path. -/
theorem C5_counterexample :
    Sig.run_multiplexor_signals true
      [Sig.IterOutcome.events, Sig.IterOutcome.pollFail] =
      (some Sig.ExitPath.pollFailed, true, false) := by
  rfl

/-- C5 (amended): `run_multiplexor` installs the ignore disposition
for SIGPIPE on entry (when `sigaction` succeeds), and restores the
previously installed disposition exactly on the normal exit path
(empty poll set); the early returns on poll failure and on
allocation failure leave SIGPIPE ignored. -/
theorem C5_sigpipe_scope (iters : List Sig.IterOutcome) :
    (Sig.run_multiplexor_signals true iters).2.1 = true ∧
    (Sig.run_multiplexor_signals true iters).2.2 =
      decide ((Sig.run_multiplexor_signals true iters).1 =
        some Sig.ExitPath.normalExit) := by
  cases h : Sig.loopExit iters with
  | none => simp [Sig.run_multiplexor_signals, h]
  | some e =>
    cases e <;> simp [Sig.run_multiplexor_signals, h]

/-- C7: evaluation of `mpx_session_scan` at the failing input — the
second request of one input burst (match at buffer offset 3, e.g.
regex `(?:(global) )?(-?\d+)\r\n` against `5\r\n3\r\n`) with
capturing group 1 not participating (`ovector[2] = ovector[3] = -1`).
The code computes `start = -1 - 3 = -4`, misses its own no-capture
test `start == -1`, and trips `assert(start >= 0 && ...)`
(`mpx_session.c:368`), aborting (`none`) instead of setting the
caller's buffer to zero length as the claim — and the code's own
comment and assertion — intend. The second conjunct shows the
intended behaviour does hold when the match starts at offset 0. -/
theorem C7_scan_assertion_failure :
    Scan.mpx_session_scan 2 3 [3, 8, -1, -1, 5, 8] [4, 5, 6, 7, 8] 5
      [some [], some []] = none ∧
    Scan.mpx_session_scan 2 0 [0, 5, -1, -1, 2, 5] [4, 5, 6, 7, 8] 5
      [some [0], some [0]] =
      some (2, [some [], some [6, 7, 8]]) := by
  decide
